import Mathlib

/-!
Verification of the hand-written optimization code of the notebook
`labs/08_frameworks/A_PyTorch_introduction__autograd_in_action.ipynb`.

The notebook's original logic is: a `GradientDescent` optimizer class
(`step` / `zero_grad`), a `MomentumGradientDescent` subclass whose `step`
body is left as an exercise (`pass`), an iterative `minimize` driver, a
`Gaussian` / `GaussianCombination` pair of modules, and a euclidean-norm
function used to demonstrate reverse-mode differentiation.

Tensors holding parameter values and gradients are embedded as lists of
rationals (exact arithmetic in place of `float32`); a parameter is a value
together with an optional gradient accumulator (`None` in Python becomes
`none`).  Fallible operations (in-place update with an absent gradient,
`torch.cat` on an empty list, constructor `assert`s) return `Option`.
-/

/-- A leaf tensor as used by the optimizers: a value (`.data`) and an
optional gradient accumulator (`.grad`, `None` until `backward` runs). -/
structure Param where
  data : List ℚ
  grad : Option (List ℚ)
deriving DecidableEq, Repr

/-- The convergence threshold `1e-6` of `minimize`. -/
def tol : ℚ := 1 / 1000000

/-- `float(torch.sum(g ** 2))`: the squared L2 norm of a gradient tensor. -/
def sqNormL (g : List ℚ) : ℚ := (g.map (fun a => a ^ 2)).sum

/-- `value.backward()` accumulates the freshly computed gradient `g` into the
stored accumulator: an absent accumulator becomes `g`, an existing one has
`g` added elementwise. -/
def accumGrad (g0 : Option (List ℚ)) (g : List ℚ) : List ℚ :=
  match g0 with
  | none => g
  | some zs => List.zipWith (· + ·) zs g

/-- `param.grad.zero_()` guarded by `if param.grad is not None`: zero the
accumulator elementwise when present, keep `None` otherwise.  The value
`.data` is untouched. -/
def Param.zeroGrad (p : Param) : Param :=
  { p with grad := p.grad.map (List.map (fun _ => (0 : ℚ))) }

/-- The hand-written `GradientDescent` optimizer: a list of parameters and a
learning rate. -/
structure GradientDescent where
  params : List Param
  lr : ℚ
deriving DecidableEq, Repr

/-- The loop body of `GradientDescent.step`: `param -= self.lr * param.grad`
for each parameter in order.  When a parameter's gradient is `None` the
in-place subtraction raises a `TypeError`, embedded as `none`; otherwise the
value is updated elementwise and the gradient is left as it is. -/
def stepParams (lr : ℚ) : List Param → Option (List Param)
  | [] => some []
  | p :: ps =>
    match p.grad with
    | none => none
    | some g =>
      (stepParams lr ps).map
        (fun rest => ⟨List.zipWith (fun x gi => x - lr * gi) p.data g, some g⟩ :: rest)

/-- `GradientDescent.step`: update every parameter in place by
`param -= lr * param.grad`. -/
def GradientDescent.step (o : GradientDescent) : Option GradientDescent :=
  (stepParams o.lr o.params).map (fun ps => { o with params := ps })

/-- `GradientDescent.zero_grad`: zero each present gradient accumulator,
skip the absent ones. -/
def GradientDescent.zeroGradAll (o : GradientDescent) : GradientDescent :=
  { o with params := o.params.map Param.zeroGrad }

/-- The hand-written `MomentumGradientDescent(GradientDescent)` optimizer:
the inherited parameter list and learning rate, plus a momentum coefficient
and one velocity tensor per parameter (initialised to zeros by
`__init__`). -/
structure MomentumGradientDescent where
  params : List Param
  lr : ℚ
  momentum : ℚ
  velocities : List (List ℚ)
deriving DecidableEq, Repr

/-- `MomentumGradientDescent.step` as written in the notebook: the body is
`pass` (a TODO left to the learner), so the call succeeds and changes
nothing. -/
def MomentumGradientDescent.step (o : MomentumGradientDescent) :
    Option MomentumGradientDescent :=
  some o

/-- The inherited `zero_grad` of `MomentumGradientDescent` (same code as
`GradientDescent.zero_grad`, acting on the parameter list only). -/
def MomentumGradientDescent.zeroGradAll (o : MomentumGradientDescent) :
    MomentumGradientDescent :=
  { o with params := o.params.map Param.zeroGrad }

/-- The interface `minimize` uses on an optimizer object: read its parameter
list, write it back (used to model `backward` storing the gradient on the
iterate), call `zero_grad`, and call `step` (which may raise). -/
structure OptIface (σ : Type) where
  params : σ → List Param
  withParams : σ → List Param → σ
  zero_grad : σ → σ
  step : σ → Option σ

/-- The `OptIface` instance for `GradientDescent`. -/
def gdIface : OptIface GradientDescent where
  params o := o.params
  withParams o ps := { o with params := ps }
  zero_grad := GradientDescent.zeroGradAll
  step := GradientDescent.step

/-- The `OptIface` instance for `MomentumGradientDescent` (as written:
`step` is a no-op). -/
def mgdIface : OptIface MomentumGradientDescent where
  params o := o.params
  withParams o ps := { o with params := ps }
  zero_grad := MomentumGradientDescent.zeroGradAll
  step := MomentumGradientDescent.step

/-- `torch.cat(iterate_record, dim=0)`: stacking an empty list of rows
raises a `RuntimeError` (embedded as `none`); otherwise the rows are
returned as given. -/
def cat (rec : List (List ℚ)) : Option (List (List ℚ)) :=
  match rec with
  | [] => none
  | _ => some rec

/-- The `for i in range(max_iter)` loop of `minimize`, embedded with the
remaining iteration count as fuel.  Each iteration: `optimizer.zero_grad()`;
`value.backward()` stores the accumulated gradient `gradf x` on the single
parameter; break when `float(torch.sum(iterate.grad ** 2)) < 1e-6`;
otherwise record `iterate.data.clone()` and run `optimizer.step()`. -/
def minimizeLoop {σ : Type} (I : OptIface σ) (gradf : List ℚ → List ℚ) :
    Nat → σ → List (List ℚ) → Option (List (List ℚ))
  | 0, _, rec => some rec
  | n + 1, s, rec =>
    let s1 := I.zero_grad s
    match I.params s1 with
    | [p] =>
      let gacc := accumGrad p.grad (gradf p.data)
      let s2 := I.withParams s1 [{ p with grad := some gacc }]
      if sqNormL gacc < tol then some rec
      else
        match I.step s2 with
        | none => none
        | some s3 => minimizeLoop I gradf n s3 (rec ++ [p.data])
    | _ => none

/-- The `minimize` driver: destructure `[iterate] = optimizer.params`
(raising when the list does not have exactly one element), run the loop for
at most `max_iter` iterations, and return `torch.cat(iterate_record, dim=0)`. -/
def minimize {σ : Type} (I : OptIface σ) (gradf : List ℚ → List ℚ)
    (optimizer : σ) (max_iter : Nat := 500) : Option (List (List ℚ)) :=
  match I.params optimizer with
  | [_] => (minimizeLoop I gradf max_iter optimizer []) >>= cat
  | _ => none

/-- One gradient-descent update of the iterate value: `x - lr * gradf x`
elementwise. -/
def gdUpdate (lr : ℚ) (gradf : List ℚ → List ℚ) (x : List ℚ) : List ℚ :=
  List.zipWith (fun a g => a - lr * g) x (gradf x)

/-- The sequence of iterate values produced by `GradientDescent`:
`gdSeq lr gradf x0 i` is the value of the iterate before the `i`-th
optimizer step. -/
def gdSeq (lr : ℚ) (gradf : List ℚ → List ℚ) (x0 : List ℚ) : Nat → List ℚ
  | 0 => x0
  | n + 1 => gdUpdate lr gradf (gdSeq lr gradf x0 n)

/-- The number of optimizer steps a `minimize` run with budget `n` performs
from iterate `x0`: it stops stepping as soon as the squared gradient norm
falls below `tol`, and otherwise exhausts the budget. -/
def stopIndex (lr : ℚ) (gradf : List ℚ → List ℚ) (x0 : List ℚ) : Nat → Nat
  | 0 => 0
  | n + 1 =>
    if sqNormL (gradf x0) < tol then 0
    else stopIndex lr gradf (gdUpdate lr gradf x0) n + 1

/-- Modelled from the spec: the notebook leaves the body of
`MomentumGradientDescent.step` as an exercise (`# TODO: implement me!` /
`pass`) and loads the reference implementation from
`solutions/momentum_optimizer.py`, a repository file not among the sources
here.  The spec gives the update rule `v ← μ·v + ∇x` followed by
`x ← x − lr·v`, applied to each parameter paired with its stored velocity;
an absent gradient makes the arithmetic raise, embedded as `none`. -/
def stepSpecParams (lr mu : ℚ) :
    List Param → List (List ℚ) → Option (List Param × List (List ℚ))
  | [], _ => some ([], [])
  | _ :: _, [] => some ([], [])
  | p :: ps, v :: vtl =>
    match p.grad with
    | none => none
    | some g =>
      let vNew := List.zipWith (fun vi gi => mu * vi + gi) v g
      (stepSpecParams lr mu ps vtl).map fun r =>
        (⟨List.zipWith (fun x vi => x - lr * vi) p.data vNew, some g⟩ :: r.1,
         vNew :: r.2)

/-- Modelled from the spec: `MomentumGradientDescent.step` as specified
(see `stepSpecParams`), updating the parameters and velocities of the
optimizer state. -/
def MomentumGradientDescent.stepSpec (o : MomentumGradientDescent) :
    Option MomentumGradientDescent :=
  (stepSpecParams o.lr o.momentum o.params o.velocities).map fun r =>
    { o with params := r.1, velocities := r.2 }

namespace ShapeModel

/-- The `Gaussian` module's parameters with dynamic shapes: a rank-2 tensor
as a list of rows and a rank-1 tensor as a list of entries, so that the
constructor's shape `assert`s can be stated and can fail. -/
structure Gaussian where
  precision : List (List ℚ)
  mean : List ℚ
deriving DecidableEq, Repr

/-- `Gaussian.__init__`: `assert precision.shape == (2, 2)` and
`assert mean.shape == (2,)`, then store both as parameters.  A failed
`assert` raises `AssertionError`, embedded as `none`. -/
def Gaussian.init (precision : List (List ℚ)) (mean : List ℚ) :
    Option Gaussian :=
  if (precision.length = 2 ∧ ∀ r ∈ precision, r.length = 2) ∧ mean.length = 2 then
    some ⟨precision, mean⟩
  else none

end ShapeModel

/-- A 2D point, the input and mean type of the `Gaussian` module (exact
reals in place of `float32`). -/
abbrev Vec2 := ℝ × ℝ

/-- A 2×2 precision matrix. -/
abbrev Mat2 := (ℝ × ℝ) × (ℝ × ℝ)

/-- The `Gaussian` module at the level of values: its precision and mean
parameters, with the shapes checked by the constructor asserts fixed by the
types. -/
structure Gaussian where
  precision : Mat2
  mean : Vec2

/-- `Gaussian.forward` on a single 2D vector (the mini-batch-of-one
reshape of the source collapses to the same arithmetic): with
`xc = x - mean`, compute `exp(-.5 * sum((xc @ precision) * xc))`.  The
external `torch.exp` is passed as `expf`. -/
noncomputable def Gaussian.forward (expf : ℝ → ℝ) (gsn : Gaussian) (x : Vec2) : ℝ :=
  let xc : Vec2 := (x.1 - gsn.mean.1, x.2 - gsn.mean.2)
  let y : Vec2 := (xc.1 * gsn.precision.1.1 + xc.2 * gsn.precision.2.1,
                   xc.1 * gsn.precision.1.2 + xc.2 * gsn.precision.2.2)
  expf (-(1/2) * (y.1 * xc.1 + y.2 * xc.2))

/-- The `GaussianCombination` module: a list of `Gaussian` submodules and
their weights. -/
structure GaussianCombination where
  gaussians : List Gaussian
  weights : List ℝ

/-- `GaussianCombination.__init__`:
`assert len(precisions) == len(means) == len(weights)` (raising as `none`
otherwise), then build one `Gaussian` per precision/mean pair. -/
def GaussianCombination.init (precisions : List Mat2) (means : List Vec2)
    (weights : List ℝ) : Option GaussianCombination :=
  if precisions.length = means.length ∧ means.length = weights.length then
    some ⟨List.zipWith (fun p m => Gaussian.mk p m) precisions means, weights⟩
  else none

/-- `GaussianCombination.forward`: `sum(w * g(x) for g, w in zip(...))`. -/
noncomputable def GaussianCombination.forward (expf : ℝ → ℝ) (gc : GaussianCombination)
    (x : Vec2) : ℝ :=
  (List.zipWith (fun gsn w => w * gsn.forward expf x) gc.gaussians gc.weights).sum

/-- The quadratic form `vᵀ P v` appearing in the closed formula
`exp(-½ (x-m)ᵀ P (x-m))` for one Gaussian bump. -/
noncomputable def quadForm (P : Mat2) (v : Vec2) : ℝ :=
  v.1 * (P.1.1 * v.1 + P.1.2 * v.2) + v.2 * (P.2.1 * v.1 + P.2.2 * v.2)

/-- The euclidean-norm function of the notebook,
`f x = torch.sqrt(torch.sum(x ** 2, axis=0))`, on vectors of dimension
`n = 3` (exact reals in place of `float32`). -/
noncomputable def f (x : ℝ × ℝ × ℝ) : ℝ :=
  Real.sqrt (x.1 ^ 2 + x.2.1 ^ 2 + x.2.2 ^ 2)

/-- The analytically derived gradient the notebook compares against:
`expected_grad = x / f(x)`, elementwise. -/
noncomputable def expected_grad (x : ℝ × ℝ × ℝ) : ℝ × ℝ × ℝ :=
  (x.1 / f x, x.2.1 / f x, x.2.2 / f x)

/-- Adding a zeroed accumulator of matching shape to a fresh gradient gives
exactly the fresh gradient: after `zero_grad`, `backward` stores `gradf x`. -/
theorem zipWith_map_zero_add :
    ∀ (zs g : List ℚ), zs.length = g.length →
      List.zipWith (· + ·) (zs.map fun _ => (0 : ℚ)) g = g
  | [], [], _ => rfl
  | [], _ :: _, h => by simp at h
  | _ :: _, [], h => by simp at h
  | z :: zs, a :: g, h => by
    have ih := zipWith_map_zero_add zs g (by simpa using h)
    simp only [List.map_cons, List.zipWith_cons_cons, zero_add, ih]

/-- `gdUpdate` keeps the shape of the iterate when the gradient has the
iterate's shape. -/
theorem gdUpdate_length (lr : ℚ) (gradf : List ℚ → List ℚ)
    (hg : ∀ x, (gradf x).length = x.length) (x : List ℚ) :
    (gdUpdate lr gradf x).length = x.length := by
  simp [gdUpdate, hg x]

/-- The iterate reached after `i + 1` updates from `x` is the iterate reached
after `i` updates from the once-updated `x`. -/
theorem gdSeq_shift (lr : ℚ) (gradf : List ℚ → List ℚ) (x : List ℚ) :
    ∀ i, gdSeq lr gradf x (i + 1) = gdSeq lr gradf (gdUpdate lr gradf x) i
  | 0 => rfl
  | i + 1 => by
    show gdUpdate lr gradf (gdSeq lr gradf x (i + 1)) = _
    rw [gdSeq_shift lr gradf x i]
    rfl

/-- Unfolding the recorded trajectory by one step. -/
theorem range_map_gdSeq_shift (lr : ℚ) (gradf : List ℚ → List ℚ) (x : List ℚ)
    (k : Nat) :
    (List.range (k + 1)).map (gdSeq lr gradf x)
      = x :: (List.range k).map (gdSeq lr gradf (gdUpdate lr gradf x)) := by
  rw [List.range_succ_eq_map]
  simp only [List.map_cons, List.map_map]
  refine congrArg₂ _ rfl ?_
  refine List.map_congr_left fun i _ => ?_
  simpa using gdSeq_shift lr gradf x i

theorem gdIface_params (o : GradientDescent) : gdIface.params o = o.params := rfl

theorem gdIface_withParams (o : GradientDescent) (ps : List Param) :
    gdIface.withParams o ps = { o with params := ps } := rfl

theorem gdIface_zero (o : GradientDescent) :
    gdIface.zero_grad o = o.zeroGradAll := rfl

theorem gdIface_step : gdIface.step = GradientDescent.step := rfl

/-- Characterization of the `minimize` loop for a `GradientDescent` optimizer
holding one parameter: it always succeeds, appending to the record the
iterates visited before each executed step, which are exactly the first
`stopIndex` elements of the gradient-descent sequence. -/
theorem gd_loop (lr : ℚ) (gradf : List ℚ → List ℚ)
    (hg : ∀ x, (gradf x).length = x.length) (n : Nat) :
    ∀ (x : List ℚ) (g0 : Option (List ℚ)),
      (∀ zs, g0 = some zs → zs.length = x.length) →
      ∀ (rec : List (List ℚ)),
        minimizeLoop gdIface gradf n ⟨[⟨x, g0⟩], lr⟩ rec
          = some (rec ++ (List.range (stopIndex lr gradf x n)).map (gdSeq lr gradf x)) := by
  induction n with
  | zero => intro x g0 _ rec; simp [minimizeLoop, stopIndex]
  | succ n ih =>
    intro x g0 hg0 rec
    have hacc :
        accumGrad (Option.map (List.map fun _ => (0 : ℚ)) g0) (gradf x) = gradf x := by
      cases g0 with
      | none => rfl
      | some zs =>
        have hzs : zs.length = (gradf x).length := by
          rw [hg x]; exact hg0 zs rfl
        simpa [accumGrad] using zipWith_map_zero_add zs (gradf x) hzs
    by_cases hc : sqNormL (gradf x) < tol
    · simp [minimizeLoop, gdIface, GradientDescent.zeroGradAll, Param.zeroGrad,
        hacc, hc, stopIndex]
    · have hstep :
          GradientDescent.step ⟨[⟨x, some (gradf x)⟩], lr⟩
            = some ⟨[⟨gdUpdate lr gradf x, some (gradf x)⟩], lr⟩ := by
        simp [GradientDescent.step, stepParams, gdUpdate]
      have ihx := ih (gdUpdate lr gradf x) (some (gradf x))
        (fun zs hzs => by
          cases hzs
          rw [gdUpdate_length lr gradf hg x, hg x])
        (rec ++ [x])
      simp only [minimizeLoop, gdIface_params, gdIface_withParams, gdIface_zero,
        gdIface_step, GradientDescent.zeroGradAll, Param.zeroGrad,
        List.map_cons, List.map_nil, hacc, hc, if_false, hstep, stopIndex]
      rw [range_map_gdSeq_shift, ihx]
      simp

/-- The number of steps performed never exceeds the iteration budget. -/
theorem stopIndex_le (lr : ℚ) (gradf : List ℚ → List ℚ) :
    ∀ (N : Nat) (x : List ℚ), stopIndex lr gradf x N ≤ N
  | 0, _ => Nat.le_refl 0
  | N + 1, x => by
    by_cases hc : sqNormL (gradf x) < tol
    · simp [stopIndex, hc]
    · simp only [stopIndex, hc, if_false]
      exact Nat.succ_le_succ (stopIndex_le lr gradf N (gdUpdate lr gradf x))

/-- Before the stopping point the squared gradient norm never falls below
the threshold. -/
theorem stopIndex_min (lr : ℚ) (gradf : List ℚ → List ℚ) :
    ∀ (N : Nat) (x : List ℚ) (i : Nat), i < stopIndex lr gradf x N →
      ¬ sqNormL (gradf (gdSeq lr gradf x i)) < tol
  | 0, _, i, hi => absurd hi (Nat.not_lt_zero i)
  | N + 1, x, i, hi => by
    by_cases hc : sqNormL (gradf x) < tol
    · rw [stopIndex, if_pos hc] at hi
      exact absurd hi (Nat.not_lt_zero i)
    · rw [stopIndex, if_neg hc] at hi
      match i with
      | 0 => exact hc
      | j + 1 =>
        rw [gdSeq_shift]
        exact stopIndex_min lr gradf N (gdUpdate lr gradf x) j (Nat.lt_of_succ_lt_succ hi)

/-- When the loop stops strictly inside the budget, the squared gradient norm
at the stopping iterate is below the threshold. -/
theorem stopIndex_conv (lr : ℚ) (gradf : List ℚ → List ℚ) :
    ∀ (N : Nat) (x : List ℚ), stopIndex lr gradf x N < N →
      sqNormL (gradf (gdSeq lr gradf x (stopIndex lr gradf x N))) < tol
  | 0, _, h => absurd h (Nat.not_lt_zero _)
  | N + 1, x, h => by
    by_cases hc : sqNormL (gradf x) < tol
    · rw [stopIndex, if_pos hc]
      exact hc
    · rw [stopIndex, if_neg hc] at h ⊢
      rw [gdSeq_shift]
      exact stopIndex_conv lr gradf N (gdUpdate lr gradf x) (Nat.lt_of_succ_lt_succ h)

/-- C1: for every objective (given through its gradient function `gradf`,
which autograd evaluates exactly at the current iterate), every
`GradientDescent` optimizer and every iteration budget `N` (`max_iter`,
default 500 in `minimize`), the loop performs `stopIndex ≤ N` optimizer
steps; no iterate seen before stopping has squared gradient norm below
`1e-6`; stopping strictly before the budget happens exactly at the first
iterate whose squared gradient norm is below `1e-6`; and the run returns the
concatenation of the recorded iterates.  If the threshold is never reached,
`stopIndex = N` and the full budget is used. -/
theorem minimize_budget_convergence (lr : ℚ) (gradf : List ℚ → List ℚ)
    (hg : ∀ x, (gradf x).length = x.length) (x0 : List ℚ) (N : Nat) :
    stopIndex lr gradf x0 N ≤ N ∧
    (∀ i, i < stopIndex lr gradf x0 N →
      ¬ sqNormL (gradf (gdSeq lr gradf x0 i)) < tol) ∧
    (stopIndex lr gradf x0 N < N →
      sqNormL (gradf (gdSeq lr gradf x0 (stopIndex lr gradf x0 N))) < tol) ∧
    minimize gdIface gradf ⟨[⟨x0, none⟩], lr⟩ N
      = cat ((List.range (stopIndex lr gradf x0 N)).map (gdSeq lr gradf x0)) := by
  refine ⟨stopIndex_le lr gradf N x0, stopIndex_min lr gradf N x0,
    stopIndex_conv lr gradf N x0, ?_⟩
  have h := gd_loop lr gradf hg N x0 none (fun zs hzs => by cases hzs) []
  simp only [minimize, gdIface_params, h, List.nil_append]
  rfl

/-- Witness for C1: the one-dimensional objective `f x = x² / 2` (gradient
`gradf = id`) started at `[1]` with `lr = 1` and budget `2`. -/
theorem minimize_budget_convergence_witness :
    (∀ x : List ℚ, ((fun y : List ℚ => y) x).length = x.length) ∧
    (stopIndex 1 (fun y : List ℚ => y) [1] 2 ≤ 2 ∧
    (∀ i, i < stopIndex 1 (fun y : List ℚ => y) [1] 2 →
      ¬ sqNormL ((fun y : List ℚ => y) (gdSeq 1 (fun y : List ℚ => y) [1] i)) < tol) ∧
    (stopIndex 1 (fun y : List ℚ => y) [1] 2 < 2 →
      sqNormL ((fun y : List ℚ => y)
        (gdSeq 1 (fun y : List ℚ => y) [1] (stopIndex 1 (fun y : List ℚ => y) [1] 2))) < tol) ∧
    minimize gdIface (fun y : List ℚ => y) ⟨[⟨[1], none⟩], 1⟩ 2
      = cat ((List.range (stopIndex 1 (fun y : List ℚ => y) [1] 2)).map
          (gdSeq 1 (fun y : List ℚ => y) [1]))) :=
  ⟨fun _ => rfl, minimize_budget_convergence 1 (fun y => y) (fun _ => rfl) [1] 2⟩

/-- C7: with a constant objective the gradient is identically zero, so the
squared gradient norm is below `1e-6` already at the first iteration: the
loop breaks before recording any iterate and `torch.cat` is called on the
empty list, which raises (`none`) instead of returning an empty trajectory.
The initial iterate is `[0.8, 0.8]` and the learning rate `0.1`, as in the
notebook. -/
theorem minimize_converged_first_iter_error :
    minimize gdIface (fun x => x.map fun _ => 0)
      ⟨[⟨[(8 : ℚ)/10, 8/10], none⟩], (1 : ℚ)/10⟩ 500 = none := by
  have hg : ∀ x : List ℚ, (x.map fun _ => (0 : ℚ)).length = x.length := by simp
  have h := gd_loop ((1 : ℚ)/10) (fun x => x.map fun _ => 0) hg 500
    [(8 : ℚ)/10, 8/10] none (fun zs hzs => by cases hzs) []
  have hstop : stopIndex ((1 : ℚ)/10) (fun x => x.map fun _ => 0)
      [(8 : ℚ)/10, 8/10] 500 = 0 := by
    have hc : sqNormL (([(8 : ℚ)/10, 8/10].map fun _ => (0 : ℚ))) < tol := by
      norm_num [sqNormL, tol]
    show stopIndex ((1 : ℚ)/10) (fun x => x.map fun _ => 0)
      [(8 : ℚ)/10, 8/10] (499 + 1) = 0
    rw [stopIndex, if_pos hc]
  rw [hstop] at h
  simp only [minimize, gdIface_params, h, List.range_zero, List.map_nil,
    List.nil_append, Option.some_bind]
  rfl

/-- C8: a `minimize` run that performs `k = stopIndex ≥ 1` optimizer steps
returns a trajectory of exactly `k` rows, whose `i`-th row is the value of
the iterate recorded (via `clone`) just before the `i`-th optimizer step;
the final iterate, whether converged or produced by the last step of the
budget, is never part of the trajectory (only indices `< k` occur). -/
theorem minimize_trajectory_rows (lr : ℚ) (gradf : List ℚ → List ℚ)
    (hg : ∀ x, (gradf x).length = x.length) (x0 : List ℚ) (N : Nat)
    (hsteps : 1 ≤ stopIndex lr gradf x0 N) :
    minimize gdIface gradf ⟨[⟨x0, none⟩], lr⟩ N
      = some ((List.range (stopIndex lr gradf x0 N)).map (gdSeq lr gradf x0)) ∧
    ((List.range (stopIndex lr gradf x0 N)).map (gdSeq lr gradf x0)).length
      = stopIndex lr gradf x0 N ∧
    ∀ i, i < stopIndex lr gradf x0 N →
      ((List.range (stopIndex lr gradf x0 N)).map (gdSeq lr gradf x0)).getD i []
        = gdSeq lr gradf x0 i := by
  have h := gd_loop lr gradf hg N x0 none (fun zs hzs => by cases hzs) []
  refine ⟨?_, by simp, ?_⟩
  · simp only [minimize, gdIface_params, h, List.nil_append, Option.some_bind]
    obtain ⟨k, hk⟩ : ∃ k, stopIndex lr gradf x0 N = k + 1 :=
      ⟨stopIndex lr gradf x0 N - 1, by omega⟩
    rw [hk, range_map_gdSeq_shift]
    rfl
  · intro i hi
    simp [List.getD, List.getElem?_map, List.getElem?_range, hi]

/-- Witness for C8: gradient `id`, start `[1]`, `lr = 1`, budget `2`: exactly
one step is performed. -/
theorem minimize_trajectory_rows_witness :
    ((∀ x : List ℚ, ((fun y : List ℚ => y) x).length = x.length) ∧
      1 ≤ stopIndex 1 (fun y : List ℚ => y) [1] 2) ∧
    minimize gdIface (fun y : List ℚ => y) ⟨[⟨[1], none⟩], 1⟩ 2
      = some ((List.range (stopIndex 1 (fun y : List ℚ => y) [1] 2)).map
          (gdSeq 1 (fun y : List ℚ => y) [1])) := by
  have hone : 1 ≤ stopIndex 1 (fun y : List ℚ => y) [1] 2 := by
    show 1 ≤ stopIndex 1 (fun y : List ℚ => y) [1] (1 + 1)
    rw [stopIndex]
    have : ¬ sqNormL ((fun y : List ℚ => y) [1]) < tol := by
      norm_num [sqNormL, tol]
    rw [if_neg this]
    omega
  exact ⟨⟨fun _ => rfl, hone⟩,
    (minimize_trajectory_rows 1 (fun y => y) (fun _ => rfl) [1] 2 hone).1⟩

theorem mgdIface_params (o : MomentumGradientDescent) :
    mgdIface.params o = o.params := rfl

theorem mgdIface_withParams (o : MomentumGradientDescent) (ps : List Param) :
    mgdIface.withParams o ps = { o with params := ps } := rfl

theorem mgdIface_zero (o : MomentumGradientDescent) :
    mgdIface.zero_grad o = o.zeroGradAll := rfl

theorem mgdIface_step : mgdIface.step = MomentumGradientDescent.step := rfl

/-- The `minimize` loop driven by the as-written `MomentumGradientDescent`
(whose `step` is `pass`): when the initial gradient is not below the
threshold, every iteration records the unchanged iterate, so `n` loop
iterations append `n` copies of the starting value. -/
theorem mgd_loop (lr mu : ℚ) (gradf : List ℚ → List ℚ) (x : List ℚ)
    (hnc : ¬ sqNormL (gradf x) < tol) :
    ∀ (n : Nat) (vs : List (List ℚ)) (g0 : Option (List ℚ)),
      (g0 = none ∨ g0 = some (gradf x)) →
      ∀ (rec : List (List ℚ)),
        minimizeLoop mgdIface gradf n ⟨[⟨x, g0⟩], lr, mu, vs⟩ rec
          = some (rec ++ List.replicate n x) := by
  intro n
  induction n with
  | zero => intro vs g0 _ rec; simp [minimizeLoop]
  | succ n ih =>
    intro vs g0 hg0 rec
    have hacc :
        accumGrad (Option.map (List.map fun _ => (0 : ℚ)) g0) (gradf x) = gradf x := by
      rcases hg0 with h0 | h0 <;> subst h0
      · rfl
      · simpa [accumGrad] using zipWith_map_zero_add (gradf x) (gradf x) rfl
    have ihx := ih vs (some (gradf x)) (Or.inr rfl) (rec ++ [x])
    simp only [minimizeLoop, mgdIface_params, mgdIface_withParams, mgdIface_zero,
      mgdIface_step, MomentumGradientDescent.zeroGradAll, Param.zeroGrad,
      List.map_cons, List.map_nil, hacc, hnc, if_false,
      MomentumGradientDescent.step, ihx, List.replicate_succ]
    simp

/-- C6: `MomentumGradientDescent.step` as written in the notebook is `pass`:
for every optimizer state it returns the state unchanged (every parameter
value, gradient, and velocity tensor is untouched), and consequently a
`minimize` run driven by it never moves the iterate: the run either raises
on the empty record (when the gradient is converged at the start or the
budget is zero) or returns `max_iter` copies of the initial iterate. -/
theorem momentum_step_noop (s : MomentumGradientDescent)
    (gradf : List ℚ → List ℚ) (lr mu : ℚ) (x0 : List ℚ)
    (vs : List (List ℚ)) (N : Nat) :
    MomentumGradientDescent.step s = some s ∧
    (minimize mgdIface gradf ⟨[⟨x0, none⟩], lr, mu, vs⟩ N = none ∨
     minimize mgdIface gradf ⟨[⟨x0, none⟩], lr, mu, vs⟩ N
       = some (List.replicate N x0)) := by
  refine ⟨rfl, ?_⟩
  match N with
  | 0 => left; rfl
  | n + 1 =>
    by_cases hc : sqNormL (gradf x0) < tol
    · left
      have hbreak :
          minimizeLoop mgdIface gradf (n + 1) ⟨[⟨x0, none⟩], lr, mu, vs⟩ []
            = some [] := by
        simp only [minimizeLoop, mgdIface_params, mgdIface_withParams, mgdIface_zero,
          MomentumGradientDescent.zeroGradAll, Param.zeroGrad,
          List.map_cons, List.map_nil]
        rw [show accumGrad (Option.map (List.map fun _ => (0 : ℚ)) none) (gradf x0)
            = gradf x0 from rfl]
        rw [if_pos hc]
      simp only [minimize, mgdIface_params, hbreak]
      rfl
    · right
      have h := mgd_loop lr mu gradf x0 hc (n + 1) vs none (Or.inl rfl) []
      simp only [minimize, mgdIface_params, h, List.nil_append, List.replicate_succ]
      rfl

/-- C2: `GradientDescent.step` with every gradient present succeeds and
replaces each parameter value `x` elementwise by `x - lr * g`, where `g` is
that parameter's current gradient; the gradients themselves and the learning
rate are not modified.  Parameters are given as parallel lists of values
`ds` and gradients `gs`. -/
theorem gradientDescent_step_update (lr : ℚ) :
    ∀ (ds gs : List (List ℚ)), ds.length = gs.length →
      GradientDescent.step ⟨List.zipWith (fun d g => Param.mk d (some g)) ds gs, lr⟩
        = some ⟨List.zipWith
            (fun d g => Param.mk (List.zipWith (fun x gi => x - lr * gi) d g) (some g))
            ds gs, lr⟩ := by
  have key : ∀ (ds gs : List (List ℚ)), ds.length = gs.length →
      stepParams lr (List.zipWith (fun d g => Param.mk d (some g)) ds gs)
        = some (List.zipWith
            (fun d g => Param.mk (List.zipWith (fun x gi => x - lr * gi) d g) (some g))
            ds gs) := by
    intro ds
    induction ds with
    | nil => intro gs _; simp [stepParams]
    | cons d ds ih =>
      intro gs hlen
      match gs with
      | [] => simp at hlen
      | g :: gs =>
        have := ih gs (by simpa using hlen)
        simp [stepParams, this]
  intro ds gs hlen
  simp [GradientDescent.step, key ds gs hlen]

/-- Witness for C2: two parameters of different shapes, `lr = 1/2`. -/
theorem gradientDescent_step_update_witness :
    ([[(1 : ℚ), 2], [3]] : List (List ℚ)).length = ([[(4 : ℚ), 6], [8]] : List (List ℚ)).length ∧
    GradientDescent.step
        ⟨List.zipWith (fun d g => Param.mk d (some g)) [[(1 : ℚ), 2], [3]] [[4, 6], [8]],
         (1 : ℚ)/2⟩
      = some ⟨List.zipWith
          (fun d g => Param.mk (List.zipWith (fun x gi => x - (1 : ℚ)/2 * gi) d g) (some g))
          [[(1 : ℚ), 2], [3]] [[4, 6], [8]], (1 : ℚ)/2⟩ :=
  ⟨rfl, gradientDescent_step_update ((1 : ℚ)/2) [[1, 2], [3]] [[4, 6], [8]] rfl⟩

/-- C9: `GradientDescent.zero_grad` leaves the learning rate and every
parameter value unchanged; a parameter whose gradient accumulator is present
has it zeroed elementwise (keeping its shape), and a parameter whose
gradient is `None` is skipped (its gradient stays `None`).  Stated through
the optional indexed access `[i]?`, which also shows the parameter list
keeps its length. -/
theorem gradientDescent_zero_grad_frame (o : GradientDescent) (i : Nat) :
    o.zeroGradAll.lr = o.lr ∧
    (o.zeroGradAll.params[i]?).map Param.data = (o.params[i]?).map Param.data ∧
    (o.zeroGradAll.params[i]?).map Param.grad
      = (o.params[i]?).map (fun p => p.grad.map (List.map fun _ => (0 : ℚ))) := by
  refine ⟨rfl, ?_, ?_⟩ <;>
  · simp only [GradientDescent.zeroGradAll, List.getElem?_map, Option.map_map]
    cases o.params[i]? <;> simp [Param.zeroGrad]


/-- C3: the specified `MomentumGradientDescent.step` (modelled from the
spec, see `stepSpecParams`) performs, for each parameter with value `d`,
gradient `g` and stored velocity `v`, the momentum update
`v' = mu * v + g` followed by `d' = d - lr * v'`, leaving the learning rate
and the momentum coefficient unchanged.  Parameters are given as parallel
lists of values `ds`, gradients `gs` and velocities `vs`. -/
theorem momentum_stepSpec_update (lr mu : ℚ) :
    ∀ (ds gs vs : List (List ℚ)), ds.length = gs.length → gs.length = vs.length →
      MomentumGradientDescent.stepSpec
          ⟨List.zipWith (fun d g => Param.mk d (some g)) ds gs, lr, mu, vs⟩
        = some ⟨
            List.zipWith
              (fun (dg : List ℚ × List ℚ) v =>
                Param.mk
                  (List.zipWith (fun x vi => x - lr * vi) dg.1
                    (List.zipWith (fun vi gi => mu * vi + gi) v dg.2))
                  (some dg.2))
              (ds.zip gs) vs,
            lr, mu,
            List.zipWith (fun g v => List.zipWith (fun vi gi => mu * vi + gi) v g)
              gs vs⟩ := by
  have key : ∀ (ds gs vs : List (List ℚ)), ds.length = gs.length →
      gs.length = vs.length →
      stepSpecParams lr mu (List.zipWith (fun d g => Param.mk d (some g)) ds gs) vs
        = some
            (List.zipWith
              (fun (dg : List ℚ × List ℚ) v =>
                Param.mk
                  (List.zipWith (fun x vi => x - lr * vi) dg.1
                    (List.zipWith (fun vi gi => mu * vi + gi) v dg.2))
                  (some dg.2))
              (ds.zip gs) vs,
             List.zipWith (fun g v => List.zipWith (fun vi gi => mu * vi + gi) v g)
               gs vs) := by
    intro ds
    induction ds with
    | nil =>
      intro gs vs h1 h2
      match gs, vs with
      | [], [] => simp [stepSpecParams]
      | [], _ :: _ => simp at h2
      | _ :: _, _ => simp at h1
    | cons d ds ih =>
      intro gs vs h1 h2
      match gs, vs with
      | [], _ => simp at h1
      | g :: gs, [] => simp at h2
      | g :: gs, v :: vs =>
        have := ih gs vs (by simpa using h1) (by simpa using h2)
        simp [stepSpecParams, this]
  intro ds gs vs h1 h2
  simp [MomentumGradientDescent.stepSpec, key ds gs vs h1 h2]

/-- Witness for C3: one parameter `[1]` with gradient `[2]` and velocity
`[3]`, `lr = 1/2`, `mu = 1/4`. -/
theorem momentum_stepSpec_update_witness :
    (([[(1 : ℚ)]] : List (List ℚ)).length = ([[(2 : ℚ)]] : List (List ℚ)).length ∧
     ([[(2 : ℚ)]] : List (List ℚ)).length = ([[(3 : ℚ)]] : List (List ℚ)).length) ∧
    MomentumGradientDescent.stepSpec
        ⟨List.zipWith (fun d g => Param.mk d (some g)) [[(1 : ℚ)]] [[2]],
         (1 : ℚ)/2, (1 : ℚ)/4, [[3]]⟩
      = some ⟨
          List.zipWith
            (fun (dg : List ℚ × List ℚ) v =>
              Param.mk
                (List.zipWith (fun x vi => x - (1 : ℚ)/2 * vi) dg.1
                  (List.zipWith (fun vi gi => (1 : ℚ)/4 * vi + gi) v dg.2))
                (some dg.2))
            (([[(1 : ℚ)]] : List (List ℚ)).zip [[2]]) [[3]],
          (1 : ℚ)/2, (1 : ℚ)/4,
          List.zipWith (fun g v => List.zipWith (fun vi gi => (1 : ℚ)/4 * vi + gi) v g)
            [[(2 : ℚ)]] [[3]]⟩ :=
  ⟨⟨rfl, rfl⟩, momentum_stepSpec_update ((1 : ℚ)/2) ((1 : ℚ)/4) [[1]] [[2]] [[3]] rfl rfl⟩

/-- C4 counterexample: `Gaussian.__init__` is an operation defined by the
repository itself that asserts an error condition of its own: constructing a
`Gaussian` with a 1×1 precision matrix trips
`assert precision.shape == (2, 2)` and raises (`none`), so the external
type-mismatch failure is not the only error condition surfaced by the
repository's code. -/
theorem gaussian_init_assert_ceg :
    ShapeModel.Gaussian.init [[(1 : ℚ)]] [1, 0] = none := by
  simp [ShapeModel.Gaussian.init]

/-- C4 (amended): besides the type-mismatch failure raised by the external
tensor library, the repository's own `Gaussian.__init__` asserts its
arguments' shapes: it raises exactly when the precision is not a 2×2 matrix
or the mean is not a 2-vector, and otherwise stores them unchanged. -/
theorem gaussian_init_assert_iff (precision : List (List ℚ)) (mean : List ℚ) :
    ShapeModel.Gaussian.init precision mean = none
      ↔ ¬ (precision.length = 2 ∧ (∀ r ∈ precision, r.length = 2) ∧
            mean.length = 2) := by
  by_cases h : (precision.length = 2 ∧ ∀ r ∈ precision, r.length = 2) ∧
      mean.length = 2
  · rw [ShapeModel.Gaussian.init, if_pos h]
    simp only [reduceCtorEq, false_iff]
    tauto
  · rw [ShapeModel.Gaussian.init, if_neg h]
    simp only [true_iff]
    tauto

/-- C5: a `GaussianCombination` constructed with weights `1` and `-1` from
precisions `P1, P2` and means `m1, m2` computes, on every 2D input `x`, the
difference of the two unnormalized Gaussian likelihoods
`exp(-½ (x-m1)ᵀ P1 (x-m1)) - exp(-½ (x-m2)ᵀ P2 (x-m2))` (the toy objective
of the notebook's gradient-descent comparison, with `w1 = 1`, `w2 = -1`). -/
theorem gaussianCombination_two_bumps (P1 P2 : Mat2) (m1 m2 : Vec2) (x : Vec2) :
    (GaussianCombination.init [P1, P2] [m1, m2] [1, -1]).map
        (fun gc => gc.forward Real.exp x)
      = some (Real.exp (-(1/2) * quadForm P1 (x.1 - m1.1, x.2 - m1.2))
              - Real.exp (-(1/2) * quadForm P2 (x.1 - m2.1, x.2 - m2.2))) := by
  rw [GaussianCombination.init, if_pos (by simp)]
  simp only [Option.map_some', List.zipWith, GaussianCombination.forward,
    Gaussian.forward, List.sum_cons, List.sum_nil]
  have e1 :
      -(1/2) * (((x.1 - m1.1) * P1.1.1 + (x.2 - m1.2) * P1.2.1) * (x.1 - m1.1) +
        ((x.1 - m1.1) * P1.1.2 + (x.2 - m1.2) * P1.2.2) * (x.2 - m1.2))
        = -(1/2) * quadForm P1 (x.1 - m1.1, x.2 - m1.2) := by
    simp only [quadForm]
    ring
  have e2 :
      -(1/2) * (((x.1 - m2.1) * P2.1.1 + (x.2 - m2.2) * P2.2.1) * (x.1 - m2.1) +
        ((x.1 - m2.1) * P2.1.2 + (x.2 - m2.2) * P2.2.2) * (x.2 - m2.2))
        = -(1/2) * quadForm P2 (x.1 - m2.1, x.2 - m2.2) := by
    simp only [quadForm]
    ring
  rw [e1, e2]
  ring_nf

/-- A nonzero 3-vector has positive sum of squared coordinates. -/
theorem sum_sq_pos (x : ℝ × ℝ × ℝ) (hx : x ≠ (0, 0, 0)) :
    0 < x.1 ^ 2 + x.2.1 ^ 2 + x.2.2 ^ 2 := by
  rcases eq_or_ne x.1 0 with h1 | h1
  · rcases eq_or_ne x.2.1 0 with h2 | h2
    · rcases eq_or_ne x.2.2 0 with h3 | h3
      · exact absurd
          (Prod.ext_iff.mpr ⟨h1, Prod.ext_iff.mpr ⟨h2, h3⟩⟩) hx
      · have := (sq_nonneg x.2.2).lt_of_ne (Ne.symm (pow_ne_zero 2 h3))
        nlinarith [sq_nonneg x.1, sq_nonneg x.2.1]
    · have := (sq_nonneg x.2.1).lt_of_ne (Ne.symm (pow_ne_zero 2 h2))
      nlinarith [sq_nonneg x.1, sq_nonneg x.2.2]
  · have := (sq_nonneg x.1).lt_of_ne (Ne.symm (pow_ne_zero 2 h1))
    nlinarith [sq_nonneg x.2.1, sq_nonneg x.2.2]

/-- Derivative of `u ↦ sqrt (u² + c)` at `t` when `t² + c > 0`. -/
theorem sqrt_quad_hasDerivAt (t c : ℝ) (h : 0 < t ^ 2 + c) :
    HasDerivAt (fun u : ℝ => Real.sqrt (u ^ 2 + c))
      (t / Real.sqrt (t ^ 2 + c)) t := by
  have hinner : HasDerivAt (fun u : ℝ => u ^ 2 + c) (2 * t) t := by
    simpa using (hasDerivAt_pow 2 t).add_const c
  have hsq := Real.hasDerivAt_sqrt (ne_of_gt h)
  have hval : 1 / (2 * Real.sqrt (t ^ 2 + c)) * (2 * t)
      = t / Real.sqrt (t ^ 2 + c) := by
    have hs : Real.sqrt (t ^ 2 + c) ≠ 0 := (Real.sqrt_pos.mpr h).ne'
    field_simp
    ring
  have hcomp := hsq.comp t hinner
  rw [hval] at hcomp
  exact hcomp

/-- C10: for every nonzero vector `x` the gradient of the norm function
`f x = sqrt (sum x²)` — which reverse-mode differentiation computes exactly,
per the notebook's description of autograd — equals the analytically derived
formula `expected_grad x = x / ‖x‖₂`, coordinate by coordinate: each partial
derivative of `f` at `x` is the corresponding component of
`expected_grad x`. -/
theorem norm_gradient_formula (x : ℝ × ℝ × ℝ) (hx : x ≠ (0, 0, 0)) :
    HasDerivAt (fun t => f (t, x.2.1, x.2.2)) (expected_grad x).1 x.1 ∧
    HasDerivAt (fun t => f (x.1, t, x.2.2)) (expected_grad x).2.1 x.2.1 ∧
    HasDerivAt (fun t => f (x.1, x.2.1, t)) (expected_grad x).2.2 x.2.2 := by
  have hs := sum_sq_pos x hx
  refine ⟨?_, ?_, ?_⟩
  · have e : (fun t : ℝ => f (t, x.2.1, x.2.2))
        = fun t : ℝ => Real.sqrt (t ^ 2 + (x.2.1 ^ 2 + x.2.2 ^ 2)) := by
      funext t
      exact congrArg Real.sqrt (by ring)
    have ed : (expected_grad x).1
        = x.1 / Real.sqrt (x.1 ^ 2 + (x.2.1 ^ 2 + x.2.2 ^ 2)) := by
      simp only [expected_grad, f]
      rw [show x.1 ^ 2 + x.2.1 ^ 2 + x.2.2 ^ 2
          = x.1 ^ 2 + (x.2.1 ^ 2 + x.2.2 ^ 2) from by ring]
    rw [e, ed]
    exact sqrt_quad_hasDerivAt x.1 (x.2.1 ^ 2 + x.2.2 ^ 2) (by linarith)
  · have e : (fun t : ℝ => f (x.1, t, x.2.2))
        = fun t : ℝ => Real.sqrt (t ^ 2 + (x.1 ^ 2 + x.2.2 ^ 2)) := by
      funext t
      exact congrArg Real.sqrt (by ring)
    have ed : (expected_grad x).2.1
        = x.2.1 / Real.sqrt (x.2.1 ^ 2 + (x.1 ^ 2 + x.2.2 ^ 2)) := by
      simp only [expected_grad, f]
      rw [show x.1 ^ 2 + x.2.1 ^ 2 + x.2.2 ^ 2
          = x.2.1 ^ 2 + (x.1 ^ 2 + x.2.2 ^ 2) from by ring]
    rw [e, ed]
    exact sqrt_quad_hasDerivAt x.2.1 (x.1 ^ 2 + x.2.2 ^ 2) (by linarith)
  · have e : (fun t : ℝ => f (x.1, x.2.1, t))
        = fun t : ℝ => Real.sqrt (t ^ 2 + (x.1 ^ 2 + x.2.1 ^ 2)) := by
      funext t
      exact congrArg Real.sqrt (by ring)
    have ed : (expected_grad x).2.2
        = x.2.2 / Real.sqrt (x.2.2 ^ 2 + (x.1 ^ 2 + x.2.1 ^ 2)) := by
      simp only [expected_grad, f]
      rw [show x.1 ^ 2 + x.2.1 ^ 2 + x.2.2 ^ 2
          = x.2.2 ^ 2 + (x.1 ^ 2 + x.2.1 ^ 2) from by ring]
    rw [e, ed]
    exact sqrt_quad_hasDerivAt x.2.2 (x.1 ^ 2 + x.2.1 ^ 2) (by linarith)

/-- Witness for C10: the nonzero vector `(1, 0, 0)`. -/
theorem norm_gradient_formula_witness :
    ((1 : ℝ), (0 : ℝ), (0 : ℝ)) ≠ ((0 : ℝ), (0 : ℝ), (0 : ℝ)) ∧
    (HasDerivAt (fun t => f (t, ((1 : ℝ), (0 : ℝ), (0 : ℝ)).2.1,
        ((1 : ℝ), (0 : ℝ), (0 : ℝ)).2.2))
        (expected_grad (1, 0, 0)).1 ((1 : ℝ), (0 : ℝ), (0 : ℝ)).1 ∧
      HasDerivAt (fun t => f (((1 : ℝ), (0 : ℝ), (0 : ℝ)).1, t,
        ((1 : ℝ), (0 : ℝ), (0 : ℝ)).2.2))
        (expected_grad (1, 0, 0)).2.1 ((1 : ℝ), (0 : ℝ), (0 : ℝ)).2.1 ∧
      HasDerivAt (fun t => f (((1 : ℝ), (0 : ℝ), (0 : ℝ)).1,
        ((1 : ℝ), (0 : ℝ), (0 : ℝ)).2.1, t))
        (expected_grad (1, 0, 0)).2.2 ((1 : ℝ), (0 : ℝ), (0 : ℝ)).2.2) :=
  ⟨by simp, norm_gradient_formula (1, 0, 0) (by simp)⟩
